import Mathlib

/-!
Verification of the room synchronization and playlist coordination engine of
the listen-together server (`src/models/Room.js`, `src/services/RoomManager.js`,
`src/services/SyncService.js`, `src/handlers/SocketHandlers.js`,
`config/default.js`).

Modelling conventions:
* JavaScript `Map` (insertion-ordered) is a `List` of entries; `Map.set`
  replaces in place when the key is present and appends otherwise;
  `Map.delete` filters; `values().next().value` is the head.
* JavaScript `Set` of strings is a `List String` with membership-guarded
  append for `add` and filter for `delete`; the `Set` built from an id list
  in `reorderPlaylist` is a `Finset String` (`size` is `card`,
  `every(... has ...)` is `⊆`).
* `Date.now()` timestamps are `Nat` milliseconds supplied as an explicit
  `now` argument; playback seconds are `ℚ` (JS numbers in this code hold
  second values with fractional parts).
* `uuidv4()` is modelled as an explicit `uuid` argument: the value the
  generator returned for that call.
* Methods that mutate the room return the updated `Room`; socket emissions
  of a handler are returned as a `List Emit` in program order, where
  `io.to(roomId).emit` is a room-wide broadcast, `socket.emit` a unicast to
  the sender, and `io.to(roomId).except(sender).emit` a broadcast to all
  participants but the sender.
-/

namespace ListenTogether

/-- Identity attached to a connection by OAuth (`userInfo` in the source);
absent fields are `none`. -/
structure UserInfo where
  username : Option String
  displayName : Option String
  sub : Option String
  mezonId : Option String
  avatar : Option String
deriving DecidableEq

/-- A participant record as built by `Room.addParticipant`. -/
structure Participant where
  socketId : String
  username : String
  userId : Option String
  avatar : Option String
  joinedAt : Nat
  isOwner : Bool
  hasPlaylistPermission : Bool
deriving DecidableEq

/-- The payload of a video as it arrives from the client (YouTube search
result); opaque for this development. -/
structure Video where
  videoId : String
  title : String
deriving DecidableEq

/-- A playlist entry as built by `Room.addVideo`: the video payload plus the
fresh `uuidv4()` id and queue metadata. -/
structure PlaylistItem where
  video : Video
  id : String
  addedAt : Nat
  addedBy : String
deriving DecidableEq

/-- Room state (`Room` constructor in `src/models/Room.js`). -/
structure Room where
  id : String
  playlist : List PlaylistItem
  currentVideo : Option PlaylistItem
  currentTime : ℚ
  isPlaying : Bool
  volume : Nat
  participants : List Participant
  owner : Option String
  playlistPermissions : List String
  lastUpdate : Nat
  createdAt : Nat
deriving DecidableEq

/-- `new Room(id)`. -/
def Room.new (id : String) (now : Nat) : Room :=
  { id := id, playlist := [], currentVideo := none, currentTime := 0,
    isPlaying := false, volume := 50, participants := [], owner := none,
    playlistPermissions := [], lastUpdate := now, createdAt := now }

/-- JS `Map.set` on the participants map: replace in place if the key is
present, append otherwise. -/
def mapSet (l : List Participant) (p : Participant) : List Participant :=
  if l.any (fun q => q.socketId == p.socketId) then
    l.map (fun q => if q.socketId == p.socketId then p else q)
  else l ++ [p]

/-- JS `Set.add` on a string set. -/
def setAdd (l : List String) (s : String) : List String :=
  if l.contains s then l else l ++ [s]

/-- JS falsiness of an optional string (`undefined`, `null` and `""` are
falsy). -/
def jsFalsy (x : Option String) : Bool :=
  match x with
  | none => true
  | some s => s == ""

/-- JS `x || y` on optional strings. -/
def jsOr (x y : Option String) : Option String :=
  if jsFalsy x then y else x

/-- JS `String.slice(-6)`. -/
def lastSix (s : String) : String :=
  ⟨s.data.drop (s.data.length - 6)⟩

/-- The display name chosen in `addParticipant`:
`userInfo?.username || userInfo?.display_name || Guest-<last 6 of id>`. -/
def usernameOf (socketId : String) (info : Option UserInfo) : String :=
  let u := jsOr (info.bind UserInfo.username) (info.bind UserInfo.displayName)
  if jsFalsy u then "Guest-" ++ lastSix socketId else u.getD ""

/-- The user id chosen in `addParticipant`:
`userInfo?.sub || userInfo?.mezon_id || null`. -/
def userIdOf (info : Option UserInfo) : Option String :=
  let u := jsOr (info.bind UserInfo.sub) (info.bind UserInfo.mezonId)
  if jsFalsy u then none else u

/-- The avatar chosen in `addParticipant`: `userInfo?.avatar || null`. -/
def avatarOf (info : Option UserInfo) : Option String :=
  if jsFalsy (info.bind UserInfo.avatar) then none
  else info.bind UserInfo.avatar

/-- `Room.addParticipant(socketId, userInfo)`: builds the participant record,
makes it owner with playlist permission when the room is empty, and stores it
in the participants map. Returns the room and the participant. -/
def Room.addParticipant (r : Room) (socketId : String) (info : Option UserInfo)
    (now : Nat) : Room × Participant :=
  let p0 : Participant :=
    { socketId := socketId, username := usernameOf socketId info,
      userId := userIdOf info, avatar := avatarOf info,
      joinedAt := now, isOwner := false, hasPlaylistPermission := false }
  if r.participants.isEmpty then
    let p := { p0 with isOwner := true, hasPlaylistPermission := true }
    ({ r with participants := mapSet r.participants p,
              owner := some socketId,
              playlistPermissions := setAdd r.playlistPermissions socketId }, p)
  else
    ({ r with participants := mapSet r.participants p0 }, p0)

/-- `Room.removeParticipant(socketId)`: deletes the participant and its
permission; if the owner left and participants remain, the first remaining
participant (map insertion order) becomes owner with playlist permission. -/
def Room.removeParticipant (r : Room) (socketId : String) : Room × Bool :=
  match r.participants.find? (fun p => p.socketId == socketId) with
  | none => (r, false)
  | some _ =>
    let parts := r.participants.filter (fun p => p.socketId != socketId)
    let perms := r.playlistPermissions.filter (fun s => s != socketId)
    let r1 := { r with participants := parts, playlistPermissions := perms }
    if r.owner = some socketId then
      match parts with
      | [] => (r1, true)
      | newOwner :: rest =>
        let updated := { newOwner with isOwner := true,
                                       hasPlaylistPermission := true }
        ({ r1 with participants := updated :: rest,
                   owner := some newOwner.socketId,
                   playlistPermissions := setAdd perms newOwner.socketId },
         true)
    else (r1, true)

/-- `Room.grantPlaylistPermission(socketId)`. -/
def Room.grantPlaylistPermission (r : Room) (socketId : String) : Room × Bool :=
  if r.participants.any (fun p => p.socketId == socketId) then
    ({ r with
        participants := r.participants.map (fun p =>
          if p.socketId == socketId then { p with hasPlaylistPermission := true }
          else p),
        playlistPermissions := setAdd r.playlistPermissions socketId }, true)
  else (r, false)

/-- `Room.revokePlaylistPermission(socketId)`: fails when the target is not a
participant or is the owner. -/
def Room.revokePlaylistPermission (r : Room) (socketId : String) : Room × Bool :=
  match r.participants.find? (fun p => p.socketId == socketId) with
  | none => (r, false)
  | some p =>
    if p.isOwner then (r, false)
    else
      ({ r with
          participants := r.participants.map (fun q =>
            if q.socketId == socketId then { q with hasPlaylistPermission := false }
            else q),
          playlistPermissions :=
            r.playlistPermissions.filter (fun s => s != socketId) }, true)

/-- `Room.hasPlaylistPermission(socketId)`. -/
def Room.hasPlaylistPermission (r : Room) (socketId : String) : Bool :=
  r.playlistPermissions.contains socketId

/-- `Room.isOwner(socketId)`. -/
def Room.isOwner (r : Room) (socketId : String) : Bool :=
  r.owner == some socketId

/-- `Room.addVideo(video, addedBy)`: appends the entry carrying the fresh
`uuidv4()` value (the `uuid` argument) and queue metadata. -/
def Room.addVideo (r : Room) (video : Video) (uuid : String) (now : Nat)
    (addedBy : Option String) : Room × PlaylistItem :=
  let participant := addedBy.bind (fun sid =>
    r.participants.find? (fun p => p.socketId == sid))
  let item : PlaylistItem :=
    { video := video, id := uuid, addedAt := now,
      addedBy := match participant with
                 | some p => p.username
                 | none => "Unknown" }
  ({ r with playlist := r.playlist ++ [item] }, item)

/-- `Room.removeVideo(videoId)`: filters the playlist; reports whether the
length changed. -/
def Room.removeVideo (r : Room) (videoId : String) : Room × Bool :=
  let newPl := r.playlist.filter (fun v => v.id != videoId)
  ({ r with playlist := newPl }, newPl.length != r.playlist.length)

/-- `Room.playNext()`: shifts the playlist head into `currentVideo`, resets
the playhead and stamps `lastUpdate`; on an empty playlist clears
`currentVideo`, `isPlaying` and the playhead. -/
def Room.playNext (r : Room) (now : Nat) : Room × Option PlaylistItem :=
  match r.playlist with
  | v :: rest =>
    ({ r with currentVideo := some v, playlist := rest, currentTime := 0,
              isPlaying := true, lastUpdate := now }, some v)
  | [] =>
    ({ r with currentVideo := none, isPlaying := false, currentTime := 0 },
     none)

/-- The `state` argument of `Room.updateState`: fields left `none` stand for
`undefined` and keep their current value. -/
structure StateUpdate where
  currentTime : Option ℚ := none
  isPlaying : Option Bool := none
deriving DecidableEq

/-- `Room.updateState(state)`: overwrites the provided fields and stamps
`lastUpdate = Date.now()`. -/
def Room.updateState (r : Room) (s : StateUpdate) (now : Nat) : Room :=
  { r with currentTime := s.currentTime.getD r.currentTime,
           isPlaying := s.isPlaying.getD r.isPlaying,
           lastUpdate := now }

/-- The snapshot object returned by `Room.getState`. -/
structure RoomState where
  currentVideo : Option PlaylistItem
  currentTime : ℚ
  isPlaying : Bool
  playlist : List PlaylistItem
  participants : List Participant
  participantCount : Nat
  owner : Option String
  lastUpdate : Nat
deriving DecidableEq

/-- JS `Math.max(a, b)`. -/
def jsMax (a b : ℚ) : ℚ :=
  if a ≤ b then b else a

/-- The JS spread `[...l]` / `Array.from(...)`: an element-wise rebuilt
fresh list. -/
def spreadCopy {α : Type} (l : List α) : List α :=
  l.foldr (fun a acc => a :: acc) []

/-- `Room.getState()`: pure read; while playing with a current video the
playhead is extrapolated by the wall-clock delta and clamped at `0`,
otherwise the stored value is returned. The room is returned unchanged (the
source method performs no assignment). -/
def Room.getState (r : Room) (now : Nat) : RoomState × Room :=
  let adjustedTime :=
    if r.isPlaying && r.currentVideo.isSome then
      jsMax 0 (r.currentTime + ((now : ℚ) - (r.lastUpdate : ℚ)) / 1000)
    else r.currentTime
  ({ currentVideo := r.currentVideo, currentTime := adjustedTime,
     isPlaying := r.isPlaying, playlist := spreadCopy r.playlist,
     participants := spreadCopy r.participants,
     participantCount := r.participants.length, owner := r.owner,
     lastUpdate := r.lastUpdate }, r)

/-- `Room.isEmpty()`. -/
def Room.isEmptyRoom (r : Room) : Bool :=
  r.participants.isEmpty

/-- `Room.reorderPlaylist(newPlaylist)`: builds the id `Set` of the current
playlist and of the proposal; replaces the playlist when the sets have equal
size and every existing id is in the new set, otherwise leaves the room
untouched and reports failure. -/
def Room.reorderPlaylist (r : Room) (newPlaylist : List PlaylistItem) :
    Room × Bool :=
  let existingIds : Finset String := (r.playlist.map PlaylistItem.id).toFinset
  let newIds : Finset String := (newPlaylist.map PlaylistItem.id).toFinset
  if existingIds.card = newIds.card ∧ existingIds ⊆ newIds then
    ({ r with playlist := newPlaylist }, true)
  else (r, false)

/-! Configuration (`config/default.js`, `sync` section). -/

/-- `config.sync.periodicSyncInterval` (milliseconds). -/
def periodicSyncInterval : Nat := 10000

/-- `config.sync.syncThresholds.periodic` (seconds). -/
def syncThresholdPeriodic : ℚ := 4

/-- `config.sync.syncThresholds.initial` (seconds). -/
def syncThresholdInitial : ℚ := 2

/-!
Socket handlers (`src/handlers/SocketHandlers.js`). Each handler is modelled
for the room the sender is in (`currentRoom` resolved, room found in the
manager); the room-mutation and emission behaviour is translated verbatim.
-/

/-- One socket emission performed by a handler, in program order.
`permissionDenied` is `socket.emit` (unicast to the sender); the
`ToOthers` constructors are `io.to(roomId).except(sender).emit`; the rest
are `io.to(roomId).emit` (broadcast to every participant of the room). -/
inductive Emit where
  | permissionDenied (target : String) (message : String)
  | playlistUpdated (playlist : List PlaylistItem)
  | playVideo (item : PlaylistItem)
  | playlistEnded
  | playToOthers (sender : String)
  | pauseToOthers (sender : String)
  | seekToOthers (sender : String) (time : ℚ)
deriving DecidableEq

/-- Message string of the playlist-permission denial. -/
def msgEditPlaylist : String := "You do not have permission to edit the playlist"

/-- Message string of the skip-permission denial. -/
def msgSkipVideos : String := "You do not have permission to skip videos"

/-- `handleAddVideo`: permission check, `addVideo`, auto-start via `playNext`
when no video is current (emitting `PLAY_VIDEO`), then `PLAYLIST_UPDATED`
with the resulting playlist. -/
def handleAddVideo (r : Room) (sender : String) (video : Video) (uuid : String)
    (now : Nat) : Room × List Emit :=
  if !(r.hasPlaylistPermission sender) then
    (r, [Emit.permissionDenied sender msgEditPlaylist])
  else
    let r1 := (r.addVideo video uuid now (some sender)).1
    let next :=
      if r1.currentVideo.isSome then (r1, [])
      else
        match r1.playNext now with
        | (r2, some v) => (r2, [Emit.playVideo v])
        | (r2, none) => (r2, [])
    (next.1, next.2 ++ [Emit.playlistUpdated next.1.playlist])

/-- `handleRemoveVideo`: permission check, `removeVideo`, `PLAYLIST_UPDATED`
only when something was removed. -/
def handleRemoveVideo (r : Room) (sender : String) (videoId : String) :
    Room × List Emit :=
  if !(r.hasPlaylistPermission sender) then
    (r, [Emit.permissionDenied sender msgEditPlaylist])
  else
    match r.removeVideo videoId with
    | (r1, true) => (r1, [Emit.playlistUpdated r1.playlist])
    | (r1, false) => (r1, [])

/-- `handleReorderPlaylist`: permission check, `reorderPlaylist`,
`PLAYLIST_UPDATED` only on success; a failed validation emits nothing. -/
def handleReorderPlaylist (r : Room) (sender : String)
    (newPlaylist : List PlaylistItem) : Room × List Emit :=
  if !(r.hasPlaylistPermission sender) then
    (r, [Emit.permissionDenied sender msgEditPlaylist])
  else
    match r.reorderPlaylist newPlaylist with
    | (r1, true) => (r1, [Emit.playlistUpdated r1.playlist])
    | (r1, false) => (r1, [])

/-- `handlePlay`: `updateState({isPlaying: true})` then the play state is
broadcast to the other participants. -/
def handlePlay (r : Room) (sender : String) (now : Nat) : Room × List Emit :=
  (r.updateState { isPlaying := some true } now, [Emit.playToOthers sender])

/-- `handlePause`: `updateState({isPlaying: false})` then the pause state is
broadcast to the other participants. -/
def handlePause (r : Room) (sender : String) (now : Nat) : Room × List Emit :=
  (r.updateState { isPlaying := some false } now, [Emit.pauseToOthers sender])

/-- `handleSeek`: `updateState({currentTime: time})` then the seek is
broadcast to the other participants. -/
def handleSeek (r : Room) (sender : String) (time : ℚ) (now : Nat) :
    Room × List Emit :=
  (r.updateState { currentTime := some time } now,
   [Emit.seekToOthers sender time])

/-- `handleSkipVideo`: permission check, `playNext`, `PLAY_VIDEO` or
`PLAYLIST_ENDED`, then `PLAYLIST_UPDATED`. -/
def handleSkipVideo (r : Room) (sender : String) (now : Nat) :
    Room × List Emit :=
  if !(r.hasPlaylistPermission sender) then
    (r, [Emit.permissionDenied sender msgSkipVideos])
  else
    match r.playNext now with
    | (r1, some v) =>
      (r1, [Emit.playVideo v, Emit.playlistUpdated r1.playlist])
    | (r1, none) =>
      (r1, [Emit.playlistEnded, Emit.playlistUpdated r1.playlist])

/-- `handleVideoEnded`: like skip but with no permission check. -/
def handleVideoEnded (r : Room) (now : Nat) : Room × List Emit :=
  match r.playNext now with
  | (r1, some v) => (r1, [Emit.playVideo v, Emit.playlistUpdated r1.playlist])
  | (r1, none) => (r1, [Emit.playlistEnded, Emit.playlistUpdated r1.playlist])

/-- `SyncService.updateRoomTime` (the `TIME_UPDATE` event): applies the
client-reported time only when a video is current and the room is playing. -/
def updateRoomTime (r : Room) (time : ℚ) (now : Nat) : Room :=
  if r.currentVideo.isSome && r.isPlaying then
    r.updateState { currentTime := some time } now
  else r

/-- `handleKickParticipant`, reduced to its effect on the room: requires the
sender to be owner and the target to differ from the sender, then removes the
target like a leave. -/
def handleKick (r : Room) (sender : String) (target : String) : Room :=
  if r.isOwner sender && target != sender then
    (r.removeParticipant target).1
  else r

/-!
The room-level protocol: every state-changing event of a single room, with
the arguments (including `Date.now()` readings and `uuidv4()` results) the
environment supplies. `join` is `handleJoinRoom`'s `addParticipantToRoom`,
`leave` covers both an explicit leave and a disconnect.
-/

/-- One inbound operation on a room. -/
inductive Op where
  | join (sid : String) (info : Option UserInfo) (now : Nat)
  | leave (sid : String)
  | kick (sender target : String)
  | grantPerm (sender target : String)
  | revokePerm (sender target : String)
  | addVideo (sender : String) (video : Video) (uuid : String) (now : Nat)
  | removeVideo (sender vid : String)
  | reorder (sender : String) (newPlaylist : List PlaylistItem)
  | play (sender : String) (now : Nat)
  | pause (sender : String) (now : Nat)
  | seek (sender : String) (time : ℚ) (now : Nat)
  | skip (sender : String) (now : Nat)
  | ended (now : Nat)
  | timeUpdate (time : ℚ) (now : Nat)

/-- The room after one operation, as performed by the corresponding handler.
`grantPerm` and `revokePerm` first check `room.isOwner(socket.id)` as the
handlers do. -/
def applyOp (o : Op) (r : Room) : Room :=
  match o with
  | .join sid info now => (r.addParticipant sid info now).1
  | .leave sid => (r.removeParticipant sid).1
  | .kick sender target => handleKick r sender target
  | .grantPerm sender target =>
    if r.isOwner sender then (r.grantPlaylistPermission target).1 else r
  | .revokePerm sender target =>
    if r.isOwner sender then (r.revokePlaylistPermission target).1 else r
  | .addVideo sender video uuid now => (handleAddVideo r sender video uuid now).1
  | .removeVideo sender vid => (handleRemoveVideo r sender vid).1
  | .reorder sender pl => (handleReorderPlaylist r sender pl).1
  | .play sender now => (handlePlay r sender now).1
  | .pause sender now => (handlePause r sender now).1
  | .seek sender time now => (handleSeek r sender time now).1
  | .skip sender now => (handleSkipVideo r sender now).1
  | .ended now => (handleVideoEnded r now).1
  | .timeUpdate time now => updateRoomTime r time now

/-- Room states reachable from a fresh room by a sequence of operations. -/
def Reachable (r : Room) : Prop :=
  ∃ (id : String) (t0 : Nat) (ops : List Op),
    r = ops.foldl (fun s o => applyOp o s) (Room.new id t0)

/-!
`RoomManager.getRoomsForPeriodicSync` and `SyncService.performPeriodicSync`.
The manager's `rooms` map is a list of `(roomId, room)` pairs.
-/

/-- The filter of `getRoomsForPeriodicSync`:
`room.currentVideo && room.isPlaying && room.participants.size > 1`. -/
def periodicSyncCond (room : Room) : Bool :=
  room.currentVideo.isSome && room.isPlaying &&
    decide (1 < room.participants.length)

/-- `RoomManager.getRoomsForPeriodicSync()`. -/
def getRoomsForPeriodicSync (rooms : List (String × Room)) :
    List (String × Room) :=
  rooms.filter (fun p => periodicSyncCond p.2)

/-- The `{time, tolerance}` payload of a `PERIODIC_SYNC` broadcast. -/
structure SyncMsg where
  time : ℚ
  tolerance : ℚ
deriving DecidableEq

/-- `SyncService.performPeriodicSync()`: for every selected room, one
`PERIODIC_SYNC` broadcast to that room carrying the `getState` playhead and
the periodic tolerance from the configuration. -/
def performPeriodicSync (rooms : List (String × Room)) (now : Nat) :
    List (String × SyncMsg) :=
  (getRoomsForPeriodicSync rooms).map (fun p =>
    (p.1, { time := ((p.2.getState now).1).currentTime,
            tolerance := syncThresholdPeriodic }))

/-! Invariant predicates and helper measures. -/

/-- The socket ids of a room's participants, in map order. -/
def socketIds (r : Room) : List String :=
  r.participants.map Participant.socketId

/-- Number of participants whose `isOwner` flag is set. -/
def ownersCount (r : Room) : Nat :=
  (r.participants.filter (fun p => p.isOwner)).length

/-- The structural invariant behind ownership uniqueness: participant keys
are distinct, every participant flagged as owner is the one the `owner`
field names, and while the room is inhabited the `owner` field names a
present participant. -/
def OwnerInv (r : Room) : Prop :=
  (socketIds r).Nodup
  ∧ (∀ p ∈ r.participants, p.isOwner = true → r.owner = some p.socketId)
  ∧ (∀ sid, r.owner = some sid → r.participants ≠ [] → sid ∈ socketIds r)

/-- The queue is empty whenever no video is current. -/
def NullInv (r : Room) : Prop :=
  r.currentVideo = none → r.playlist = []

/-! Concrete rooms and payloads used to instantiate theorems. -/

/-- A sample video payload. -/
def vidX : Video := { videoId := "yt-x", title := "X" }

/-- A sample playlist entry with id `a`. -/
def entryA : PlaylistItem :=
  { video := vidX, id := "a", addedAt := 0, addedBy := "A" }

/-- A sample playlist entry with id `b`. -/
def entryB : PlaylistItem :=
  { video := vidX, id := "b", addedAt := 0, addedBy := "A" }

/-- A room after a single join by connection `A`. -/
def joinedRoom : Room :=
  [Op.join "A" none 0].foldl (fun s o => applyOp o s) (Room.new "x" 0)

/-- A room after `A` joins, enqueues a video (auto-start) and a client time
report sets the playhead to `10` with `lastUpdate = 0`. -/
def playingRoom : Room :=
  [Op.join "A" none 0, Op.addVideo "A" vidX "a" 0,
   Op.timeUpdate 10 0].foldl (fun s o => applyOp o s) (Room.new "x" 0)

/-- A room after `A` and then `B` join. -/
def twoRoom : Room :=
  [Op.join "A" none 0, Op.join "B" none 1].foldl
    (fun s o => applyOp o s) (Room.new "x" 0)

/-- A playing two-participant room: `A` and `B` join, `A` enqueues. -/
def playingTwoRoom : Room :=
  [Op.join "A" none 0, Op.join "B" none 1,
   Op.addVideo "A" vidX "a" 2].foldl (fun s o => applyOp o s) (Room.new "x" 0)

/-- A reachable room whose stored playhead is negative: `A` joins and seeks
to `-5` while nothing is playing. -/
def negSeekRoom : Room :=
  [Op.join "A" none 0, Op.seek "A" (-5) 10].foldl
    (fun s o => applyOp o s) (Room.new "x" 0)

/-- A reachable room where a play event arrived with no current video. -/
def playNoItemRoom : Room :=
  [Op.join "A" none 0, Op.play "A" 5].foldl
    (fun s o => applyOp o s) (Room.new "x" 0)

/-- A room with two distinct queued entries, used against `reorderPlaylist`. -/
def reorderRoom : Room :=
  { Room.new "x" 0 with playlist := [entryA, entryB] }

/-- First enqueue of the id-allocation counterexample: the generator
returned `"b"`. -/
def addSeq1 : Room × PlaylistItem :=
  (Room.new "x" 0).addVideo vidX "b" 0 none

/-- Second enqueue of the id-allocation counterexample: the generator then
returned `"a"`. -/
def addSeq2 : Room × PlaylistItem :=
  addSeq1.1.addVideo vidX "a" 1 none

/-- A two-room manager: a playing two-participant room and an idle one. -/
def rooms2 : List (String × Room) :=
  [("p", playingTwoRoom), ("q", joinedRoom)]

/-- The participant record `addParticipant` builds for a guest join by
connection `A` at time `0`. -/
def pA : Participant :=
  { socketId := "A", username := "Guest-A", userId := none, avatar := none,
    joinedAt := 0, isOwner := true, hasPlaylistPermission := true }

/-- The entry `addVideo` builds for `vidX`, id `a`, added by `A` at `0`. -/
def itemA0 : PlaylistItem :=
  { video := vidX, id := "a", addedAt := 0, addedBy := "Guest-A" }

/-- `playingRoom` written out field by field. -/
def playingRoomE : Room :=
  { id := "x", playlist := [], currentVideo := some itemA0, currentTime := 10,
    isPlaying := true, volume := 50, participants := [pA], owner := some "A",
    playlistPermissions := ["A"], lastUpdate := 0, createdAt := 0 }

/-! General helper lemmas. -/

/-- The spread copy rebuilds the same list value. -/
theorem spreadCopy_eq {α : Type} (l : List α) : spreadCopy l = l := by
  induction l with
  | nil => rfl
  | cons a t ih => simp only [spreadCopy] at ih ⊢; simp [ih]

/-- `reorderPlaylist` either replaces the playlist and succeeds or returns
the room untouched with failure. -/
theorem reorderPlaylist_cases (r : Room) (pl : List PlaylistItem) :
    r.reorderPlaylist pl = ({ r with playlist := pl }, true)
    ∨ r.reorderPlaylist pl = (r, false) := by
  simp only [Room.reorderPlaylist]
  split
  · exact Or.inl rfl
  · exact Or.inr rfl

/-- A failed `reorderPlaylist` is exactly `(r, false)`. -/
theorem reorderPlaylist_fail (r : Room) (pl : List PlaylistItem)
    (h : (r.reorderPlaylist pl).2 = false) : r.reorderPlaylist pl = (r, false) := by
  rcases reorderPlaylist_cases r pl with hc | hc
  · rw [hc] at h
    exact absurd h (by simp)
  · exact hc

/-!
Claim C1. The spec demands that pausing first fold the elapsed wall-clock
time into the stored playhead. The pause handler only calls
`updateState({isPlaying: false})`, which overwrites `isPlaying` and stamps
`lastUpdate` but never touches `currentTime`: the claim is false.
-/

/-- C1 counterexample: in the reachable playing room `playingRoom` (stored
playhead `10`, stamped at `0`) the extrapolated playhead at the moment of a
pause at `5000` ms is `15`, yet the playhead stored by the pause handler is
still `10` — progress since the last stamp is discarded. -/
theorem pause_not_reconciled_cex :
    Reachable playingRoom
    ∧ playingRoom.isPlaying = true
    ∧ (playingRoom.getState 5000).1.currentTime = 15
    ∧ (handlePause playingRoom "A" 5000).1.currentTime = 10
    ∧ ((10 : ℚ) ≠ 15) := by
  refine ⟨⟨"x", 0, [Op.join "A" none 0, Op.addVideo "A" vidX "a" 0,
      Op.timeUpdate 10 0], rfl⟩, by decide, ?_, by decide, by norm_num⟩
  have h : playingRoom = playingRoomE := by decide
  rw [h]
  simp only [Room.getState, playingRoomE]
  norm_num [jsMax, itemA0]

/-- C1 (amended): the pause handler sets `isPlaying` to false, restamps
`lastUpdate` and broadcasts the pause to the other participants, but leaves
the stored playhead exactly as it was — no elapsed time is folded in. -/
theorem pause_keeps_stored_playhead (r : Room) (sender : String) (now : Nat) :
    (handlePause r sender now).1.isPlaying = false
    ∧ (handlePause r sender now).1.currentTime = r.currentTime
    ∧ (handlePause r sender now).1.lastUpdate = now
    ∧ (handlePause r sender now).2 = [Emit.pauseToOthers sender] :=
  ⟨rfl, rfl, rfl, rfl⟩

/-!
Claim C2. `reorderPlaylist` compares the id *sets* of the current queue and
the proposal (`Set` size plus membership), so a proposal that duplicates an
existing id while keeping the id set equal is accepted, refuting the
"same multiset" claim.
-/

/-- C2 counterexample: with queue `[entryA, entryB]`, the proposal
`[entryA, entryA, entryB]` — whose id list is not a permutation of the
queue's — is accepted and replaces the queue. -/
theorem reorder_accepts_duplicate_cex :
    (reorderRoom.reorderPlaylist [entryA, entryA, entryB]).2 = true
    ∧ (reorderRoom.reorderPlaylist [entryA, entryA, entryB]).1.playlist
        = [entryA, entryA, entryB]
    ∧ ¬ ([entryA, entryA, entryB].map PlaylistItem.id).Perm
        (reorderRoom.playlist.map PlaylistItem.id) := by
  decide

/-- Characterisation of `reorderPlaylist`: success is equivalent to id-set
equality; success replaces the queue, failure changes nothing. -/
theorem reorderPlaylist_spec (r : Room) (pl : List PlaylistItem) :
    ((r.reorderPlaylist pl).2 = true
      ↔ (r.playlist.map PlaylistItem.id).toFinset
          = (pl.map PlaylistItem.id).toFinset)
    ∧ ((r.reorderPlaylist pl).2 = true → (r.reorderPlaylist pl).1.playlist = pl)
    ∧ ((r.reorderPlaylist pl).2 = false → (r.reorderPlaylist pl).1 = r) := by
  have hiff : ((r.playlist.map PlaylistItem.id).toFinset.card
        = (pl.map PlaylistItem.id).toFinset.card
      ∧ (r.playlist.map PlaylistItem.id).toFinset
          ⊆ (pl.map PlaylistItem.id).toFinset)
      ↔ (r.playlist.map PlaylistItem.id).toFinset
          = (pl.map PlaylistItem.id).toFinset := by
    constructor
    · rintro ⟨h1, h2⟩
      exact Finset.eq_of_subset_of_card_le h2 (le_of_eq h1.symm)
    · rintro h
      exact ⟨by rw [h], by rw [h]⟩
  simp only [Room.reorderPlaylist]
  split
  · next h =>
    exact ⟨⟨fun _ => hiff.mp h, fun _ => by simp⟩, fun _ => rfl, by simp⟩
  · next h =>
    refine ⟨⟨fun hfalse => by simp at hfalse, fun heq => absurd (hiff.mpr heq) h⟩,
            fun hfalse => by simp at hfalse, fun _ => rfl⟩

/-- C2 (amended): reorder succeeds iff the proposal's entry-id set equals
the current queue's entry-id set (sets, multiplicity ignored); on success
the queue becomes the proposal, on failure the room is unchanged. -/
theorem reorder_id_set_spec (r : Room) (pl : List PlaylistItem) :
    ((r.reorderPlaylist pl).2 = true
      ↔ (r.playlist.map PlaylistItem.id).toFinset
          = (pl.map PlaylistItem.id).toFinset)
    ∧ ((r.reorderPlaylist pl).2 = true → (r.reorderPlaylist pl).1.playlist = pl)
    ∧ ((r.reorderPlaylist pl).2 = false → (r.reorderPlaylist pl).1 = r) :=
  reorderPlaylist_spec r pl

/-- C2 witness: the amended statement instantiated at the concrete room
with queue `[entryA, entryB]` and the proposal `[entryB]`. -/
theorem reorder_id_set_spec_w :
    (((reorderRoom.reorderPlaylist [entryB]).2 = true
      ↔ (reorderRoom.playlist.map PlaylistItem.id).toFinset
          = ([entryB].map PlaylistItem.id).toFinset)
    ∧ ((reorderRoom.reorderPlaylist [entryB]).2 = true
        → (reorderRoom.reorderPlaylist [entryB]).1.playlist = [entryB])
    ∧ ((reorderRoom.reorderPlaylist [entryB]).2 = false
        → (reorderRoom.reorderPlaylist [entryB]).1 = reorderRoom)) :=
  reorder_id_set_spec reorderRoom [entryB]

/-!
Claim C3. The handlers for play and seek do not guard on `currentVideo`, so
the invariant `currentItem == null → ¬isPlaying ∧ playhead = 0` fails on a
reachable state; what does hold is that the advance operation on an empty
queue establishes it.
-/

/-- C3 counterexample: a reachable room (join then a play event with no
current video) where `currentVideo = none` and yet `isPlaying = true`. -/
theorem play_without_item_cex :
    Reachable playNoItemRoom
    ∧ playNoItemRoom.currentVideo = none
    ∧ playNoItemRoom.isPlaying = true :=
  ⟨⟨"x", 0, [Op.join "A" none 0, Op.play "A" 5], rfl⟩, by decide, by decide⟩

/-- C3 (amended): advancing on an empty queue does establish
`currentVideo = none ∧ ¬isPlaying ∧ playhead = 0`, but the play and seek
handlers apply unconditionally: play sets `isPlaying` true and seek stores
the requested playhead even when no item is current. -/
theorem advance_empty_clears (r : Room) (now : Nat) (h : r.playlist = []) :
    ((r.playNext now).1.currentVideo = none
      ∧ (r.playNext now).1.isPlaying = false
      ∧ (r.playNext now).1.currentTime = 0)
    ∧ (∀ sender now2, (handlePlay r sender now2).1.isPlaying = true)
    ∧ (∀ sender t now2, (handleSeek r sender t now2).1.currentTime = t) := by
  refine ⟨?_, fun _ _ => rfl, fun _ _ _ => rfl⟩
  simp [Room.playNext, h]

/-- C3 witness: the amended statement instantiated at the room where `A`
has just joined (empty queue). -/
theorem advance_empty_clears_w :
    (((joinedRoom.playNext 7).1.currentVideo = none
      ∧ (joinedRoom.playNext 7).1.isPlaying = false
      ∧ (joinedRoom.playNext 7).1.currentTime = 0)
    ∧ (∀ sender now2, (handlePlay joinedRoom sender now2).1.isPlaying = true)
    ∧ (∀ sender t now2,
        (handleSeek joinedRoom sender t now2).1.currentTime = t)) :=
  advance_empty_clears joinedRoom 7 (by decide)

/-!
Claim C4. A seek stores the client-supplied value unchecked, so the stored
playhead can be negative and `getState` returns it as-is when not playing;
the `Math.max(0, ...)` clamp applies only while playing with a current
video.
-/

/-- C4 counterexample: after `A` joins and seeks to `-5` while nothing is
playing, the stored playhead is `-5` and the snapshot read returns `-5`. -/
theorem negative_seek_cex :
    Reachable negSeekRoom
    ∧ negSeekRoom.currentTime = -5
    ∧ (negSeekRoom.getState 20).1.currentTime = -5
    ∧ ((-5 : ℚ) < 0) := by
  refine ⟨⟨"x", 0, [Op.join "A" none 0, Op.seek "A" (-5) 10], rfl⟩,
    by decide, by decide, by norm_num⟩

/-- C4 (amended): the snapshot playhead is clamped at `0` (hence
nonnegative) whenever the room is playing with a current video; with no
such guard the stored value — possibly negative — is returned unchanged. -/
theorem playhead_nonneg_while_playing (r : Room) (now : Nat)
    (hp : r.isPlaying = true) (hv : r.currentVideo.isSome = true) :
    0 ≤ (r.getState now).1.currentTime := by
  simp only [Room.getState, hp, hv, Bool.and_self, if_true]
  unfold jsMax
  split
  · next h => exact h
  · exact le_refl 0

/-- C4 witness: the clamp bound instantiated at the concrete playing
room. -/
theorem playhead_nonneg_while_playing_w :
    0 ≤ (playingRoom.getState 5000).1.currentTime :=
  playhead_nonneg_while_playing playingRoom 5000 (by decide) (by decide)

/-!
Claim C9. Entry ids come from `uuidv4()`: they are fresh but carry no
order, so "monotonically increasing" fails; uniqueness holds exactly when
the generator never repeats a value.
-/

/-- C9 counterexample: with the generator returning `"b"` and then `"a"`,
the ids allocated by two successive enqueues are `"b", "a"` — the second id
is lexicographically below the first, so ids do not increase in allocation
order. -/
theorem uuid_ids_not_monotonic_cex :
    addSeq1.2.id = "b" ∧ addSeq2.2.id = "a"
    ∧ addSeq2.2.id.data < addSeq1.2.id.data
    ∧ addSeq1.2.id ≠ addSeq2.2.id
    ∧ addSeq2.1.playlist.map PlaylistItem.id = ["b", "a"] := by
  decide

/-- C9 (amended): a successful enqueue appends an entry carrying exactly
the generator's value as id; provided that value is fresh (not an id of a
queued entry), queue ids stay pairwise distinct. No order on the ids is
guaranteed. -/
theorem addVideo_fresh_id (r : Room) (video : Video) (uuid : String)
    (now : Nat) (addedBy : Option String)
    (hnd : (r.playlist.map PlaylistItem.id).Nodup)
    (hfresh : uuid ∉ r.playlist.map PlaylistItem.id) :
    (r.addVideo video uuid now addedBy).2.id = uuid
    ∧ (r.addVideo video uuid now addedBy).1.playlist.map PlaylistItem.id
        = r.playlist.map PlaylistItem.id ++ [uuid]
    ∧ ((r.addVideo video uuid now addedBy).1.playlist.map
        PlaylistItem.id).Nodup := by
  refine ⟨rfl, by simp [Room.addVideo], ?_⟩
  simp only [Room.addVideo, List.map_append, List.map_cons, List.map_nil]
  exact List.Nodup.append hnd (List.nodup_singleton uuid)
    (by simpa [List.disjoint_singleton] using hfresh)

/-- C9 witness: the amended statement instantiated at an empty fresh room
and generator value `"u"`. -/
theorem addVideo_fresh_id_w :
    ((Room.new "x" 0).addVideo vidX "u" 0 none).2.id = "u"
    ∧ ((Room.new "x" 0).addVideo vidX "u" 0 none).1.playlist.map
        PlaylistItem.id
        = (Room.new "x" 0).playlist.map PlaylistItem.id ++ ["u"]
    ∧ (((Room.new "x" 0).addVideo vidX "u" 0 none).1.playlist.map
        PlaylistItem.id).Nodup :=
  addVideo_fresh_id (Room.new "x" 0) vidX "u" 0 none (by decide) (by decide)

/-!
Claim C10. `getState` mutates nothing and hands back rebuilt copies of the
queue and participant list; in this value-level model the copy is the
element-wise rebuild `spreadCopy`, shown equal to the room's own list while
the room itself is returned untouched.
-/

/-- C10: reading a snapshot leaves the room unchanged, and the snapshot's
queue and participant list are element-wise rebuilt copies equal in value
to the room's; the remaining snapshot fields mirror the room's fields. -/
theorem getState_pure (r : Room) (now : Nat) :
    (r.getState now).2 = r
    ∧ (r.getState now).1.playlist = r.playlist
    ∧ (r.getState now).1.participants = r.participants
    ∧ (r.getState now).1.currentVideo = r.currentVideo
    ∧ (r.getState now).1.isPlaying = r.isPlaying
    ∧ (r.getState now).1.owner = r.owner
    ∧ (r.getState now).1.lastUpdate = r.lastUpdate
    ∧ (r.getState now).1.participantCount = r.participants.length := by
  refine ⟨rfl, ?_, ?_, rfl, rfl, rfl, rfl, rfl⟩
  · exact spreadCopy_eq r.playlist
  · exact spreadCopy_eq r.participants

/-!
Claim C5. Permission-denied failures indeed mutate nothing, broadcast
nothing and unicast `PERMISSION_DENIED` to the requester; but a reorder
that fails the id-set validation, while mutating nothing and broadcasting
nothing, emits no message at all — the requester is not informed.
-/

/-- C5 counterexample: in the reachable room where `A` (who holds playlist
permission) sends an invalid reorder, the handler leaves the room unchanged
and emits nothing — no unicast reaches the requester. -/
theorem reorder_failure_silent_cex :
    Reachable joinedRoom
    ∧ joinedRoom.hasPlaylistPermission "A" = true
    ∧ (joinedRoom.reorderPlaylist [entryB]).2 = false
    ∧ handleReorderPlaylist joinedRoom "A" [entryB] = (joinedRoom, []) :=
  ⟨⟨"x", 0, [Op.join "A" none 0], rfl⟩, by decide, by decide, by decide⟩

/-- C5 (amended): an operation denied for lack of playlist permission
leaves the room unchanged and emits exactly one `PERMISSION_DENIED` unicast
to the requester; a reorder rejected by validation leaves the room
unchanged and emits nothing at all. -/
theorem failed_ops_unicast_or_silent (r : Room) :
    (∀ sender, r.hasPlaylistPermission sender = false →
      (∀ video uuid now, handleAddVideo r sender video uuid now
          = (r, [Emit.permissionDenied sender msgEditPlaylist]))
      ∧ (∀ vid, handleRemoveVideo r sender vid
          = (r, [Emit.permissionDenied sender msgEditPlaylist]))
      ∧ (∀ pl, handleReorderPlaylist r sender pl
          = (r, [Emit.permissionDenied sender msgEditPlaylist]))
      ∧ (∀ now, handleSkipVideo r sender now
          = (r, [Emit.permissionDenied sender msgSkipVideos])))
    ∧ (∀ sender pl, r.hasPlaylistPermission sender = true →
        (r.reorderPlaylist pl).2 = false →
        handleReorderPlaylist r sender pl = (r, [])) := by
  constructor
  · intro sender hperm
    refine ⟨fun video uuid now => ?_, fun vid => ?_, fun pl => ?_, fun now => ?_⟩
    · simp [handleAddVideo, hperm]
    · simp [handleRemoveVideo, hperm]
    · simp [handleReorderPlaylist, hperm]
    · simp [handleSkipVideo, hperm]
  · intro sender pl hperm hfail
    have heq := reorderPlaylist_fail r pl hfail
    simp [handleReorderPlaylist, hperm, heq]

/-- C5 witness: the amended statement applied in the room where `A` has
just joined — `B` lacks permission and is denied by unicast; `A`'s invalid
reorder draws no message. -/
theorem failed_ops_unicast_or_silent_w :
    handleAddVideo joinedRoom "B" vidX "u" 3
      = (joinedRoom, [Emit.permissionDenied "B" msgEditPlaylist])
    ∧ handleReorderPlaylist joinedRoom "A" [entryB] = (joinedRoom, []) :=
  ⟨((failed_ops_unicast_or_silent joinedRoom).1 "B" (by decide)).1 vidX "u" 3,
   (failed_ops_unicast_or_silent joinedRoom).2 "A" [entryB] (by decide)
     (by decide)⟩

/-! Frame lemmas: which room fields each operation leaves untouched. -/

/-- `playNext` never touches participants, owner or permissions. -/
theorem playNext_frame (r : Room) (now : Nat) :
    (r.playNext now).1.participants = r.participants
    ∧ (r.playNext now).1.owner = r.owner := by
  unfold Room.playNext
  cases r.playlist <;> exact ⟨rfl, rfl⟩

/-- `addVideo` only appends to the playlist. -/
theorem addVideo_frame (r : Room) (v : Video) (u : String) (n : Nat)
    (b : Option String) :
    (r.addVideo v u n b).1.participants = r.participants
    ∧ (r.addVideo v u n b).1.owner = r.owner
    ∧ (r.addVideo v u n b).1.currentVideo = r.currentVideo :=
  ⟨rfl, rfl, rfl⟩

/-- The add-video handler never touches participants or owner. -/
theorem handleAddVideo_frame (r : Room) (s : String) (v : Video) (u : String)
    (n : Nat) :
    (handleAddVideo r s v u n).1.participants = r.participants
    ∧ (handleAddVideo r s v u n).1.owner = r.owner := by
  unfold handleAddVideo
  split
  · exact ⟨rfl, rfl⟩
  · dsimp only
    split
    · exact ⟨rfl, rfl⟩
    · split
      · next r2 v2 heq =>
        have h2 := playNext_frame (r.addVideo v u n (some s)).1 n
        rw [heq] at h2
        exact ⟨h2.1, h2.2⟩
      · next r2 heq =>
        have h2 := playNext_frame (r.addVideo v u n (some s)).1 n
        rw [heq] at h2
        exact ⟨h2.1, h2.2⟩

/-- The remove-video handler never touches participants or owner. -/
theorem handleRemoveVideo_frame (r : Room) (s : String) (vid : String) :
    (handleRemoveVideo r s vid).1.participants = r.participants
    ∧ (handleRemoveVideo r s vid).1.owner = r.owner := by
  unfold handleRemoveVideo
  split
  · exact ⟨rfl, rfl⟩
  · split <;> next heq =>
      (first
        | (have h2 : (r.removeVideo vid).1.participants = r.participants
              ∧ (r.removeVideo vid).1.owner = r.owner := ⟨rfl, rfl⟩
           rw [heq] at h2
           exact h2))

/-- The reorder handler never touches participants or owner. -/
theorem handleReorderPlaylist_frame (r : Room) (s : String)
    (pl : List PlaylistItem) :
    (handleReorderPlaylist r s pl).1.participants = r.participants
    ∧ (handleReorderPlaylist r s pl).1.owner = r.owner := by
  unfold handleReorderPlaylist
  split
  · exact ⟨rfl, rfl⟩
  · rcases reorderPlaylist_cases r pl with hc | hc <;> rw [hc] <;> exact ⟨rfl, rfl⟩

/-- The room component of the skip handler: the room itself when permission
is missing, `playNext` otherwise. -/
theorem handleSkipVideo_room (r : Room) (s : String) (now : Nat) :
    (handleSkipVideo r s now).1
      = if r.hasPlaylistPermission s then (r.playNext now).1 else r := by
  unfold handleSkipVideo
  by_cases h : r.hasPlaylistPermission s
  · simp only [h, Bool.not_true, Bool.false_eq_true, if_false, if_pos h]
    cases hp : r.playNext now with
    | mk r1 next => cases next <;> simp [hp]
  · simp only [Bool.not_eq_true] at h
    simp [h]

/-- The room component of the video-ended handler is `playNext`. -/
theorem handleVideoEnded_room (r : Room) (now : Nat) :
    (handleVideoEnded r now).1 = (r.playNext now).1 := by
  unfold handleVideoEnded
  split <;> next heq => rw [show (r.playNext now).1 = _ from congrArg Prod.fst heq]

/-- `grantPlaylistPermission` never touches playlist or current video. -/
theorem grant_frame (r : Room) (t : String) :
    (r.grantPlaylistPermission t).1.playlist = r.playlist
    ∧ (r.grantPlaylistPermission t).1.currentVideo = r.currentVideo := by
  unfold Room.grantPlaylistPermission
  split <;> exact ⟨rfl, rfl⟩

/-- `revokePlaylistPermission` never touches playlist or current video. -/
theorem revoke_frame (r : Room) (t : String) :
    (r.revokePlaylistPermission t).1.playlist = r.playlist
    ∧ (r.revokePlaylistPermission t).1.currentVideo = r.currentVideo := by
  unfold Room.revokePlaylistPermission
  split
  · exact ⟨rfl, rfl⟩
  · split <;> exact ⟨rfl, rfl⟩

/-- `addParticipant` never touches playlist or current video. -/
theorem addParticipant_frame (r : Room) (sid : String) (info : Option UserInfo)
    (now : Nat) :
    (r.addParticipant sid info now).1.playlist = r.playlist
    ∧ (r.addParticipant sid info now).1.currentVideo = r.currentVideo := by
  simp only [Room.addParticipant]
  split <;> exact ⟨rfl, rfl⟩

/-- `removeParticipant` never touches playlist or current video. -/
theorem removeParticipant_frame (r : Room) (sid : String) :
    (r.removeParticipant sid).1.playlist = r.playlist
    ∧ (r.removeParticipant sid).1.currentVideo = r.currentVideo := by
  simp only [Room.removeParticipant]
  split
  · exact ⟨rfl, rfl⟩
  · split
    · split <;> exact ⟨rfl, rfl⟩
    · exact ⟨rfl, rfl⟩

/-! Room-shape lemmas: the room a handler returns, by case. -/

/-- The room returned by the add-video handler. -/
theorem handleAddVideo_room (r : Room) (s : String) (v : Video) (u : String)
    (n : Nat) :
    (handleAddVideo r s v u n).1
      = if r.hasPlaylistPermission s then
          (if (r.addVideo v u n (some s)).1.currentVideo.isSome
           then (r.addVideo v u n (some s)).1
           else ((r.addVideo v u n (some s)).1.playNext n).1)
        else r := by
  unfold handleAddVideo
  by_cases hperm : r.hasPlaylistPermission s
  · simp only [hperm, Bool.not_true, Bool.false_eq_true, if_false, if_pos hperm]
    by_cases hv : (r.addVideo v u n (some s)).1.currentVideo.isSome
    · simp [hv]
    · simp only [hv, Bool.false_eq_true, if_false]
      cases hp : (r.addVideo v u n (some s)).1.playNext n with
      | mk r2 next => cases next <;> simp [hp]
  · simp only [Bool.not_eq_true] at hperm
    simp [hperm]

/-- The room returned by the remove-video handler. -/
theorem handleRemoveVideo_room (r : Room) (s : String) (vid : String) :
    (handleRemoveVideo r s vid).1
      = if r.hasPlaylistPermission s then (r.removeVideo vid).1 else r := by
  unfold handleRemoveVideo
  by_cases hperm : r.hasPlaylistPermission s
  · simp only [hperm, Bool.not_true, Bool.false_eq_true, if_false, if_pos hperm]
    cases hp : r.removeVideo vid with
    | mk r1 b => cases b <;> simp [hp]
  · simp only [Bool.not_eq_true] at hperm
    simp [hperm]

/-- The room returned by the reorder handler. -/
theorem handleReorderPlaylist_room (r : Room) (s : String)
    (pl : List PlaylistItem) :
    (handleReorderPlaylist r s pl).1
      = if r.hasPlaylistPermission s then (r.reorderPlaylist pl).1 else r := by
  unfold handleReorderPlaylist
  by_cases hperm : r.hasPlaylistPermission s
  · simp only [hperm, Bool.not_true, Bool.false_eq_true, if_false, if_pos hperm]
    cases hp : r.reorderPlaylist pl with
    | mk r1 b => cases b <;> simp [hp]
  · simp only [Bool.not_eq_true] at hperm
    simp [hperm]

/-! Preservation of `NullInv` by every operation. -/

/-- `NullInv` only depends on the playlist and the current video. -/
theorem nullInv_congr {r r' : Room} (hp : r'.playlist = r.playlist)
    (hc : r'.currentVideo = r.currentVideo) (h : NullInv r) : NullInv r' := by
  intro hnone
  rw [hp]
  exact h (by rw [← hc]; exact hnone)

/-- `playNext` always re-establishes `NullInv`. -/
theorem playNext_nullInv (r : Room) (now : Nat) : NullInv (r.playNext now).1 := by
  unfold Room.playNext
  cases hpl : r.playlist with
  | nil => intro _; rfl
  | cons a t => intro hnone; simp at hnone

/-- `removeVideo` preserves `NullInv`. -/
theorem removeVideo_nullInv (r : Room) (vid : String) (h : NullInv r) :
    NullInv (r.removeVideo vid).1 := by
  intro hnone
  have hpl : r.playlist = [] := h hnone
  simp [Room.removeVideo, hpl]

/-- `reorderPlaylist` preserves `NullInv`: with no current video the queue
is empty, so only the empty proposal passes validation. -/
theorem reorderPlaylist_nullInv (r : Room) (pl : List PlaylistItem)
    (h : NullInv r) : NullInv (r.reorderPlaylist pl).1 := by
  rcases reorderPlaylist_cases r pl with hc | hc
  · intro hnone
    have hs : (r.reorderPlaylist pl).2 = true := by rw [hc]
    have hnone2 : r.currentVideo = none := by
      have : (r.reorderPlaylist pl).1.currentVideo = r.currentVideo := by
        rw [hc]
      rw [← this]
      exact hnone
    have hpl : r.playlist = [] := h hnone2
    have hset := (reorderPlaylist_spec r pl).1.mp hs
    rw [hpl] at hset
    have hmap : pl.map PlaylistItem.id = [] := by
      simpa [List.toFinset_eq_empty_iff] using hset.symm
    have hplnil : pl = [] := List.map_eq_nil_iff.mp hmap
    rw [hc, hplnil]
  · rw [hc]
    exact h

/-- Every protocol operation preserves `NullInv`. -/
theorem nullInv_applyOp (o : Op) (r : Room) (h : NullInv r) :
    NullInv (applyOp o r) := by
  cases o with
  | join sid info now =>
    exact nullInv_congr (addParticipant_frame r sid info now).1
      (addParticipant_frame r sid info now).2 h
  | leave sid =>
    exact nullInv_congr (removeParticipant_frame r sid).1
      (removeParticipant_frame r sid).2 h
  | kick s t =>
    show NullInv (handleKick r s t)
    unfold handleKick
    split
    · exact nullInv_congr (removeParticipant_frame r t).1
        (removeParticipant_frame r t).2 h
    · exact h
  | grantPerm s t =>
    show NullInv (if r.isOwner s then (r.grantPlaylistPermission t).1 else r)
    split
    · exact nullInv_congr (grant_frame r t).1 (grant_frame r t).2 h
    · exact h
  | revokePerm s t =>
    show NullInv (if r.isOwner s then (r.revokePlaylistPermission t).1 else r)
    split
    · exact nullInv_congr (revoke_frame r t).1 (revoke_frame r t).2 h
    · exact h
  | addVideo s v u n =>
    show NullInv (handleAddVideo r s v u n).1
    rw [handleAddVideo_room]
    split
    · split
      · next hv =>
        intro hnone
        rw [hnone] at hv
        simp at hv
      · exact playNext_nullInv _ n
    · exact h
  | removeVideo s vid =>
    show NullInv (handleRemoveVideo r s vid).1
    rw [handleRemoveVideo_room]
    split
    · exact removeVideo_nullInv r vid h
    · exact h
  | reorder s pl =>
    show NullInv (handleReorderPlaylist r s pl).1
    rw [handleReorderPlaylist_room]
    split
    · exact reorderPlaylist_nullInv r pl h
    · exact h
  | play s n => exact nullInv_congr rfl rfl h
  | pause s n => exact nullInv_congr rfl rfl h
  | seek s t n => exact nullInv_congr rfl rfl h
  | skip s n =>
    show NullInv (handleSkipVideo r s n).1
    rw [handleSkipVideo_room]
    split
    · exact playNext_nullInv r n
    · exact h
  | ended n =>
    show NullInv (handleVideoEnded r n).1
    rw [handleVideoEnded_room]
    exact playNext_nullInv r n
  | timeUpdate t n =>
    show NullInv (updateRoomTime r t n)
    unfold updateRoomTime
    split
    · exact nullInv_congr rfl rfl h
    · exact h

/-- A fresh room satisfies `NullInv`. -/
theorem nullInv_new (id : String) (t0 : Nat) : NullInv (Room.new id t0) :=
  fun _ => rfl

/-- Every reachable room satisfies `NullInv`. -/
theorem reachable_nullInv {r : Room} (h : Reachable r) : NullInv r := by
  obtain ⟨id, t0, ops, rfl⟩ := h
  suffices H : ∀ (l : List Op) (s : Room), NullInv s →
      NullInv (l.foldl (fun s o => applyOp o s) s) by
    exact H ops _ (nullInv_new id t0)
  intro l
  induction l with
  | nil => intro s hs; exact hs
  | cons o t ih => intro s hs; exact ih _ (nullInv_applyOp o s hs)

/-! Preservation of `OwnerInv` by every operation. -/

/-- `Map.set` on an empty map appends the entry. -/
theorem mapSet_nil (p : Participant) : mapSet [] p = [p] := by
  simp [mapSet]

/-- If no participant matches an id, that id is not among the keys. -/
theorem any_socketId_eq_false {l : List Participant} {sid : String}
    (h : l.any (fun q => q.socketId == sid) = false) :
    sid ∉ l.map Participant.socketId := by
  intro hmem
  rcases List.mem_map.mp hmem with ⟨q, hq, hqe⟩
  have htrue : l.any (fun q => q.socketId == sid) = true :=
    List.any_eq_true.mpr ⟨q, hq, beq_iff_eq.mpr hqe⟩
  rw [h] at htrue
  cases htrue

/-- The keys after `Map.set`: unchanged on replace, appended on insert. -/
theorem mapSet_ids (l : List Participant) (p : Participant) :
    (mapSet l p).map Participant.socketId
      = if l.any (fun q => q.socketId == p.socketId)
        then l.map Participant.socketId
        else l.map Participant.socketId ++ [p.socketId] := by
  unfold mapSet
  split
  · next h =>
    rw [List.map_map]
    refine List.map_congr_left ?_
    intro q _
    simp only [Function.comp]
    split
    · next hb => exact (beq_iff_eq.mp hb).symm
    · rfl
  · next h =>
    simp

/-- Membership after `Map.set`. -/
theorem mem_mapSet {l : List Participant} {p q : Participant}
    (h : q ∈ mapSet l p) : q = p ∨ q ∈ l := by
  unfold mapSet at h
  split at h
  · rcases List.mem_map.mp h with ⟨x, hx, hxe⟩
    by_cases hb : (x.socketId == p.socketId) = true
    · rw [if_pos hb] at hxe
      exact Or.inl hxe.symm
    · rw [if_neg hb] at hxe
      exact Or.inr (hxe ▸ hx)
  · rcases List.mem_append.mp h with h1 | h1
    · exact Or.inr h1
    · exact Or.inl (List.mem_singleton.mp h1)

/-- `OwnerInv` only depends on the participants list and the owner field. -/
theorem ownerInv_congr {r r' : Room}
    (hp : r'.participants = r.participants) (ho : r'.owner = r.owner)
    (h : OwnerInv r) : OwnerInv r' := by
  obtain ⟨h1, h2, h3⟩ := h
  refine ⟨?_, ?_, ?_⟩
  · simpa [socketIds, hp] using h1
  · intro p hpm hflag
    rw [ho]
    rw [hp] at hpm
    exact h2 p hpm hflag
  · intro s hs hne
    simp only [socketIds, hp]
    rw [ho] at hs
    rw [hp] at hne
    exact h3 s hs hne

/-- `OwnerInv` survives any participant-wise update that keeps ids and
owner flags. -/
theorem ownerInv_of_map {r r' : Room} (f : Participant → Participant)
    (hpar : r'.participants = r.participants.map f)
    (ho : r'.owner = r.owner)
    (hid : ∀ p, (f p).socketId = p.socketId)
    (hfl : ∀ p, (f p).isOwner = p.isOwner)
    (h : OwnerInv r) : OwnerInv r' := by
  obtain ⟨h1, h2, h3⟩ := h
  have hids : (r.participants.map f).map Participant.socketId
      = r.participants.map Participant.socketId := by
    rw [List.map_map]
    exact List.map_congr_left (fun p _ => hid p)
  refine ⟨?_, ?_, ?_⟩
  · simp only [socketIds, hpar, hids]
    exact h1
  · intro q hq hflag
    rw [hpar] at hq
    rcases List.mem_map.mp hq with ⟨p, hpm, rfl⟩
    rw [hfl p] at hflag
    rw [ho, hid p]
    exact h2 p hpm hflag
  · intro s hs hne
    simp only [socketIds, hpar, hids]
    refine h3 s ?_ ?_
    · rw [← ho]
      exact hs
    · intro hnil
      exact hne (by simp [hpar, hnil])

/-- `addParticipant` preserves `OwnerInv`. -/
theorem ownerInv_addParticipant (r : Room) (sid : String)
    (info : Option UserInfo) (now : Nat) (h : OwnerInv r) :
    OwnerInv (r.addParticipant sid info now).1 := by
  obtain ⟨hnd, hflag, hmem⟩ := h
  simp only [Room.addParticipant]
  split
  · next hemp =>
    have hnil : r.participants = [] := List.isEmpty_iff.mp hemp
    refine ⟨?_, ?_, ?_⟩ <;> simp [socketIds, hnil, mapSet_nil]
  · next hemp =>
    have hne : r.participants ≠ [] := by
      intro hnil
      exact hemp (by simp [hnil])
    refine ⟨?_, ?_, ?_⟩
    · simp only [socketIds]
      rw [mapSet_ids]
      split
      · exact hnd
      · next hany =>
        rw [Bool.not_eq_true] at hany
        exact List.Nodup.append hnd (List.nodup_singleton _)
          (by simpa [List.disjoint_singleton] using any_socketId_eq_false hany)
    · intro q hq hqo
      rcases mem_mapSet hq with hq1 | hq1
      · rw [hq1] at hqo
        simp at hqo
      · exact hflag q hq1 hqo
    · intro s hs _
      simp only [socketIds]
      rw [mapSet_ids]
      have hsmem := hmem s hs hne
      split
      · exact hsmem
      · exact List.mem_append.mpr (Or.inl hsmem)

/-- `removeParticipant` preserves `OwnerInv`. -/
theorem ownerInv_removeParticipant (r : Room) (sid : String) (h : OwnerInv r) :
    OwnerInv (r.removeParticipant sid).1 := by
  obtain ⟨hnd, hflag, hmem⟩ := h
  have hndf : ((r.participants.filter (fun p => p.socketId != sid)).map
      Participant.socketId).Nodup :=
    hnd.sublist (List.Sublist.map _ (List.filter_sublist _))
  simp only [Room.removeParticipant]
  split
  · exact ⟨hnd, hflag, hmem⟩
  · next pf hfind =>
    split
    · next howner =>
      cases hparts : r.participants.filter (fun p => p.socketId != sid) with
      | nil =>
        refine ⟨?_, ?_, ?_⟩
        · simp [socketIds]
        · simp
        · intro s hs hne
          exact absurd rfl hne
      | cons newOwner rest =>
        rw [hparts] at hndf
        refine ⟨?_, ?_, ?_⟩
        · simpa [socketIds] using hndf
        · intro q hq hqo
          rcases List.mem_cons.mp hq with hq1 | hq1
          · rw [hq1]
          · have hqf : q ∈ r.participants.filter (fun p => p.socketId != sid) := by
              rw [hparts]
              exact List.mem_cons_of_mem _ hq1
            have hql : q ∈ r.participants := List.mem_of_mem_filter hqf
            have hqs : (q.socketId != sid) = true :=
              (List.mem_filter.mp hqf).2
            have := hflag q hql hqo
            rw [howner] at this
            exact absurd (Option.some.inj this).symm (bne_iff_ne.mp hqs)
        · intro s hs _
          simp only [socketIds]
          rw [Option.some.inj hs]
          simp
    · next howner =>
      refine ⟨?_, ?_, ?_⟩
      · simpa [socketIds] using hndf
      · intro q hq hqo
        exact hflag q (List.mem_of_mem_filter hq) hqo
      · intro s hs hne
        have hner : r.participants ≠ [] := by
          intro hnil
          rw [hnil] at hfind
          simp at hfind
        simp only [socketIds]
        have hsl := hmem s hs hner
        rcases List.mem_map.mp hsl with ⟨p, hpl, hps⟩
        have hssid : s ≠ sid := by
          intro he
          rw [he] at hs
          exact howner hs
        refine List.mem_map.mpr ⟨p, ?_, hps⟩
        refine List.mem_filter.mpr ⟨hpl, ?_⟩
        rw [bne_iff_ne]
        rw [hps]
        exact hssid

/-- `grantPlaylistPermission` preserves `OwnerInv`. -/
theorem ownerInv_grant (r : Room) (t : String) (h : OwnerInv r) :
    OwnerInv (r.grantPlaylistPermission t).1 := by
  unfold Room.grantPlaylistPermission
  split
  · exact ownerInv_of_map _ rfl rfl (fun p => by split <;> rfl)
      (fun p => by split <;> rfl) h
  · exact h

/-- `revokePlaylistPermission` preserves `OwnerInv`. -/
theorem ownerInv_revoke (r : Room) (t : String) (h : OwnerInv r) :
    OwnerInv (r.revokePlaylistPermission t).1 := by
  unfold Room.revokePlaylistPermission
  split
  · exact h
  · split
    · exact h
    · exact ownerInv_of_map _ rfl rfl (fun p => by split <;> rfl)
        (fun p => by split <;> rfl) h

/-- Every protocol operation preserves `OwnerInv`. -/
theorem ownerInv_applyOp (o : Op) (r : Room) (h : OwnerInv r) :
    OwnerInv (applyOp o r) := by
  cases o with
  | join sid info now => exact ownerInv_addParticipant r sid info now h
  | leave sid => exact ownerInv_removeParticipant r sid h
  | kick s t =>
    show OwnerInv (handleKick r s t)
    unfold handleKick
    split
    · exact ownerInv_removeParticipant r t h
    · exact h
  | grantPerm s t =>
    show OwnerInv (if r.isOwner s then (r.grantPlaylistPermission t).1 else r)
    split
    · exact ownerInv_grant r t h
    · exact h
  | revokePerm s t =>
    show OwnerInv (if r.isOwner s then (r.revokePlaylistPermission t).1 else r)
    split
    · exact ownerInv_revoke r t h
    · exact h
  | addVideo s v u n =>
    exact ownerInv_congr (handleAddVideo_frame r s v u n).1
      (handleAddVideo_frame r s v u n).2 h
  | removeVideo s vid =>
    exact ownerInv_congr (handleRemoveVideo_frame r s vid).1
      (handleRemoveVideo_frame r s vid).2 h
  | reorder s pl =>
    exact ownerInv_congr (handleReorderPlaylist_frame r s pl).1
      (handleReorderPlaylist_frame r s pl).2 h
  | play s n => exact ownerInv_congr rfl rfl h
  | pause s n => exact ownerInv_congr rfl rfl h
  | seek s t n => exact ownerInv_congr rfl rfl h
  | skip s n =>
    show OwnerInv (handleSkipVideo r s n).1
    rw [handleSkipVideo_room]
    split
    · exact ownerInv_congr (playNext_frame r n).1 (playNext_frame r n).2 h
    · exact h
  | ended n =>
    show OwnerInv (handleVideoEnded r n).1
    rw [handleVideoEnded_room]
    exact ownerInv_congr (playNext_frame r n).1 (playNext_frame r n).2 h
  | timeUpdate t n =>
    show OwnerInv (updateRoomTime r t n)
    unfold updateRoomTime
    split
    · exact ownerInv_congr rfl rfl h
    · exact h

/-- A fresh room satisfies `OwnerInv`. -/
theorem ownerInv_new (id : String) (t0 : Nat) : OwnerInv (Room.new id t0) := by
  refine ⟨?_, ?_, ?_⟩ <;> simp [socketIds, Room.new]

/-- Every reachable room satisfies `OwnerInv`. -/
theorem reachable_ownerInv {r : Room} (h : Reachable r) : OwnerInv r := by
  obtain ⟨id, t0, ops, rfl⟩ := h
  suffices H : ∀ (l : List Op) (s : Room), OwnerInv s →
      OwnerInv (l.foldl (fun s o => applyOp o s) s) by
    exact H ops _ (ownerInv_new id t0)
  intro l
  induction l with
  | nil => intro s hs; exact hs
  | cons o t ih => intro s hs; exact ih _ (ownerInv_applyOp o s hs)

/-! Counting owner flags. -/

/-- With distinct keys and all owner flags pointing at one key, at most one
participant is flagged. -/
theorem filterOwner_length_le_one {l : List Participant} (a : String)
    (hnd : (l.map Participant.socketId).Nodup)
    (hall : ∀ p ∈ l, p.isOwner = true → p.socketId = a) :
    (l.filter (fun p => p.isOwner)).length ≤ 1 := by
  induction l with
  | nil => simp
  | cons p t ih =>
    rw [List.map_cons, List.nodup_cons] at hnd
    cases hpo : p.isOwner with
    | false =>
      rw [List.filter_cons_of_neg (by simp [hpo])]
      exact ih hnd.2 (fun q hq hqo => hall q (List.mem_cons_of_mem p hq) hqo)
    | true =>
      rw [List.filter_cons_of_pos (by simp [hpo])]
      have hpa : p.socketId = a := hall p (List.mem_cons_self p t) hpo
      have ht : t.filter (fun p => p.isOwner) = [] := by
        rw [List.filter_eq_nil_iff]
        intro q hq hqo
        have hqa : q.socketId = a :=
          hall q (List.mem_cons_of_mem p hq) (by simpa using hqo)
        exact hnd.1 (List.mem_map.mpr ⟨q, hq, hqa.trans hpa.symm⟩)
      rw [ht]
      simp

/-- `OwnerInv` bounds the number of flagged participants by one. -/
theorem ownersCount_le_one_of_inv {r : Room} (h : OwnerInv r) :
    ownersCount r ≤ 1 := by
  obtain ⟨hnd, hflag, -⟩ := h
  unfold ownersCount
  cases howner : r.owner with
  | none =>
    have hnilf : r.participants.filter (fun p => p.isOwner) = [] := by
      rw [List.filter_eq_nil_iff]
      intro q hq hqo
      have := hflag q hq (by simpa using hqo)
      rw [howner] at this
      cases this
    rw [hnilf]
    simp
  | some a =>
    refine filterOwner_length_le_one a (by simpa [socketIds] using hnd) ?_
    intro p hp hpo
    have := hflag p hp hpo
    rw [howner] at this
    exact (Option.some.inj this).symm

/-- A join into an empty room crowns exactly one owner. -/
theorem ownersCount_join_empty (r : Room) (hemp : r.participants = [])
    (sid : String) (info : Option UserInfo) (now : Nat) :
    ownersCount (applyOp (Op.join sid info now) r) = 1 := by
  show ownersCount (r.addParticipant sid info now).1 = 1
  simp [Room.addParticipant, hemp, mapSet_nil, ownersCount]

/-- When the named owner leaves and participants remain, exactly one
participant is flagged afterwards. -/
theorem ownersCount_remove_owner {r : Room} (h : OwnerInv r) (sid : String)
    (howner : r.owner = some sid)
    (hne : (r.removeParticipant sid).1.participants ≠ []) :
    ownersCount (r.removeParticipant sid).1 = 1 := by
  obtain ⟨hnd, hflag, hmem⟩ := h
  have hner : r.participants ≠ [] := by
    intro hnil
    apply hne
    simp [Room.removeParticipant, hnil]
  have hsid : sid ∈ socketIds r := hmem sid howner hner
  obtain ⟨pf, hfind⟩ : ∃ pf,
      r.participants.find? (fun p => p.socketId == sid) = some pf := by
    cases hf : r.participants.find? (fun p => p.socketId == sid) with
    | none =>
      rcases List.mem_map.mp hsid with ⟨p, hp, hps⟩
      have := List.find?_eq_none.mp hf p hp
      exact absurd (beq_iff_eq.mpr hps) this
    | some pf => exact ⟨pf, rfl⟩
  have hne2 : r.participants.filter (fun p => p.socketId != sid) ≠ [] := by
    intro hnil
    apply hne
    simp [Room.removeParticipant, hfind, howner, hnil]
  cases hparts : r.participants.filter (fun p => p.socketId != sid) with
  | nil => exact absurd hparts hne2
  | cons newOwner rest =>
    have hrest : rest.filter (fun p => p.isOwner) = [] := by
      rw [List.filter_eq_nil_iff]
      intro q hq hqo
      have hqf : q ∈ r.participants.filter (fun p => p.socketId != sid) := by
        rw [hparts]
        exact List.mem_cons_of_mem _ hq
      have hql : q ∈ r.participants := List.mem_of_mem_filter hqf
      have hqs : (q.socketId != sid) = true := (List.mem_filter.mp hqf).2
      have := hflag q hql (by simpa using hqo)
      rw [howner] at this
      exact absurd (Option.some.inj this).symm (bne_iff_ne.mp hqs)
    show ownersCount (r.removeParticipant sid).1 = 1
    simp only [Room.removeParticipant, hfind, howner, hparts]
    simp only [ownersCount, if_true]
    rw [List.filter_cons_of_pos (by simp)]
    rw [hrest]
    simp

/-!
Claim C6. Ownership uniqueness: in every reachable room at most one
participant carries the owner flag; a join into an empty room crowns
exactly one; when the owner leaves with participants remaining, exactly one
remaining participant is flagged.
-/

/-- C6: for every reachable room, at most one participant has
`isOwner = true`; a join into an empty room yields exactly one; after the
owner leaves with participants remaining, exactly one remains flagged. -/
theorem ownership_uniqueness (r : Room) (hreach : Reachable r) :
    ownersCount r ≤ 1
    ∧ (∀ sid info now, r.participants = []
        → ownersCount (applyOp (Op.join sid info now) r) = 1)
    ∧ (∀ sid, r.owner = some sid
        → (applyOp (Op.leave sid) r).participants ≠ []
        → ownersCount (applyOp (Op.leave sid) r) = 1) := by
  have hinv := reachable_ownerInv hreach
  refine ⟨ownersCount_le_one_of_inv hinv, ?_, ?_⟩
  · intro sid info now hemp
    exact ownersCount_join_empty r hemp sid info now
  · intro sid ho hne
    exact ownersCount_remove_owner hinv sid ho hne

/-- C6 witness: in the reachable room where `A` then `B` joined, at most
one owner flag is set, and after owner `A` leaves exactly one remains. -/
theorem ownership_uniqueness_w :
    ownersCount twoRoom ≤ 1
    ∧ ownersCount (applyOp (Op.leave "A") twoRoom) = 1 := by
  have h := ownership_uniqueness twoRoom
    ⟨"x", 0, [Op.join "A" none 0, Op.join "B" none 1], rfl⟩
  exact ⟨h.1, h.2.2 "A" (by decide) (by decide)⟩

/-!
Claim C7. Enqueue into a room with no current video auto-starts: the
handler appends the entry and immediately plays it within the same
invocation, emitting `PLAY_VIDEO` and the final (empty) queue.
-/

/-- Computation of the add-video handler when no video is current and the
queue is empty: the new entry becomes current, playback starts, the queue
ends empty, and the emissions reflect only that final state. -/
theorem handleAddVideo_first_enqueue (r : Room) (s : String) (v : Video)
    (u : String) (n : Nat) (hperm : r.hasPlaylistPermission s = true)
    (hnone : r.currentVideo = none) (hpl : r.playlist = []) :
    handleAddVideo r s v u n
      = ({ (r.addVideo v u n (some s)).1 with
            currentVideo := some (r.addVideo v u n (some s)).2,
            playlist := [], currentTime := 0, isPlaying := true,
            lastUpdate := n },
         [Emit.playVideo (r.addVideo v u n (some s)).2,
          Emit.playlistUpdated []]) := by
  unfold handleAddVideo
  simp only [hperm, Bool.not_true, Bool.false_eq_true, if_false]
  have hv : (r.addVideo v u n (some s)).1.currentVideo = r.currentVideo := rfl
  have hplv : (r.addVideo v u n (some s)).1.playlist
      = [(r.addVideo v u n (some s)).2] := by
    simp [Room.addVideo, hpl]
  simp only [hv, hnone, Option.isSome_none, Bool.false_eq_true, if_false]
  have hnext : (r.addVideo v u n (some s)).1.playNext n
      = ({ (r.addVideo v u n (some s)).1 with
            currentVideo := some (r.addVideo v u n (some s)).2,
            playlist := [], currentTime := 0, isPlaying := true,
            lastUpdate := n },
         some (r.addVideo v u n (some s)).2) := by
    unfold Room.playNext
    rw [hplv]
  rw [hnext]
  rfl

/-- C7: in any reachable room with no current item, a successful enqueue by
a permitted requester makes the new entry current, sets playing, leaves the
entry out of the queue, and both emissions of the single handler invocation
already reflect that final state. -/
theorem auto_advance_first_enqueue (r : Room) (sender : String)
    (video : Video) (uuid : String) (now : Nat) (hreach : Reachable r)
    (hnone : r.currentVideo = none)
    (hperm : r.hasPlaylistPermission sender = true) :
    ∃ item : PlaylistItem,
      item = (r.addVideo video uuid now (some sender)).2
      ∧ item.id = uuid ∧ item.video = video
      ∧ (handleAddVideo r sender video uuid now).1.currentVideo = some item
      ∧ (handleAddVideo r sender video uuid now).1.isPlaying = true
      ∧ item ∉ (handleAddVideo r sender video uuid now).1.playlist
      ∧ (handleAddVideo r sender video uuid now).2
          = [Emit.playVideo item, Emit.playlistUpdated []] := by
  have hpl : r.playlist = [] := reachable_nullInv hreach hnone
  have h := handleAddVideo_first_enqueue r sender video uuid now hperm hnone hpl
  refine ⟨(r.addVideo video uuid now (some sender)).2, rfl, rfl, rfl,
    ?_, ?_, ?_, ?_⟩ <;> simp [h]

/-- C7 witness: the statement instantiated in the reachable room where `A`
has just joined (owner, permitted, nothing playing). -/
theorem auto_advance_first_enqueue_w :
    ∃ item : PlaylistItem,
      item = (joinedRoom.addVideo vidX "u" 3 (some "A")).2
      ∧ item.id = "u" ∧ item.video = vidX
      ∧ (handleAddVideo joinedRoom "A" vidX "u" 3).1.currentVideo = some item
      ∧ (handleAddVideo joinedRoom "A" vidX "u" 3).1.isPlaying = true
      ∧ item ∉ (handleAddVideo joinedRoom "A" vidX "u" 3).1.playlist
      ∧ (handleAddVideo joinedRoom "A" vidX "u" 3).2
          = [Emit.playVideo item, Emit.playlistUpdated []] :=
  auto_advance_first_enqueue joinedRoom "A" vidX "u" 3
    ⟨"x", 0, [Op.join "A" none 0], rfl⟩ (by decide) (by decide)

/-!
Claim C8. The periodic sync tick selects exactly the rooms with more than
one participant, playing, with a current video, and broadcasts to each the
extrapolated playhead together with the configured periodic tolerance.
-/

/-- A room id absent from the manager receives no periodic broadcast. -/
theorem periodicSync_key_not_mem (rooms : List (String × Room)) (now : Nat)
    (rid : String) (h : rid ∉ rooms.map Prod.fst) :
    (performPeriodicSync rooms now).filter (fun q => q.1 == rid) = [] := by
  induction rooms with
  | nil => rfl
  | cons p t ih =>
    have hh : ¬ p.1 = rid := by
      intro he
      exact h (by simp [he])
    have ht : rid ∉ t.map Prod.fst := fun hm => h (by simp [hm])
    by_cases hc : periodicSyncCond p.2
    · simp only [performPeriodicSync, getRoomsForPeriodicSync,
        List.filter_cons, hc, if_true, List.map_cons, eq_self_iff_true]
      rw [if_neg (by simpa using hh)]
      exact ih ht
    · simp only [performPeriodicSync, getRoomsForPeriodicSync,
        List.filter_cons, hc, Bool.false_eq_true, if_false]
      exact ih ht

/-- C8: with distinct room ids, a room receives exactly one periodic sync
broadcast — carrying the `getState` playhead and the configured 4-second
periodic tolerance — precisely when it has a current video, is playing and
has more than one participant; otherwise it receives none. The tick period
is the configured 10 seconds. -/
theorem periodic_sync_exact (rooms : List (String × Room)) (now : Nat)
    (hnd : (rooms.map Prod.fst).Nodup) (rid : String) (room : Room)
    (hmem : (rid, room) ∈ rooms) :
    periodicSyncInterval = 10000
    ∧ syncThresholdPeriodic = 4
    ∧ ((performPeriodicSync rooms now).filter (fun q => q.1 == rid)
        = if periodicSyncCond room
          then [(rid, { time := ((room.getState now).1).currentTime,
                        tolerance := syncThresholdPeriodic })]
          else [])
    ∧ (periodicSyncCond room = true
        ↔ room.currentVideo ≠ none ∧ room.isPlaying = true
          ∧ 1 < room.participants.length) := by
  refine ⟨rfl, rfl, ?_, ?_⟩
  · induction rooms with
    | nil => cases hmem
    | cons p t ih =>
      obtain ⟨p1, p2⟩ := p
      rw [List.map_cons, List.nodup_cons] at hnd
      rcases List.mem_cons.mp hmem with he | hm
      · obtain ⟨he1, he2⟩ := Prod.mk.injEq .. ▸ he
        subst he1
        subst he2
        have htail : (performPeriodicSync t now).filter
            (fun q => q.1 == rid) = [] :=
          periodicSync_key_not_mem t now rid hnd.1
        by_cases hc : periodicSyncCond room
        · simp only [performPeriodicSync, getRoomsForPeriodicSync,
            List.filter_cons, hc, if_true, List.map_cons, eq_self_iff_true]
          rw [if_pos (by simp)]
          simp only [performPeriodicSync, getRoomsForPeriodicSync] at htail
          rw [htail]
        · simp only [performPeriodicSync, getRoomsForPeriodicSync,
            List.filter_cons, hc, Bool.false_eq_true, if_false]
          simp only [performPeriodicSync, getRoomsForPeriodicSync] at htail
          exact htail
      · have hp1 : ¬ p1 = rid := by
          intro he
          subst he
          exact hnd.1 (List.mem_map.mpr ⟨(p1, room), hm, rfl⟩)
        by_cases hc : periodicSyncCond p2
        · simp only [performPeriodicSync, getRoomsForPeriodicSync,
            List.filter_cons, hc, if_true, List.map_cons, eq_self_iff_true]
          rw [if_neg (by simpa using hp1)]
          exact ih hnd.2 hm
        · simp only [performPeriodicSync, getRoomsForPeriodicSync,
            List.filter_cons, hc, Bool.false_eq_true, if_false]
          exact ih hnd.2 hm
  · simp only [periodicSyncCond, Bool.and_eq_true, decide_eq_true_eq,
      Option.isSome_iff_ne_none]
    constructor
    · rintro ⟨⟨h1, h2⟩, h3⟩
      exact ⟨h1, h2, h3⟩
    · rintro ⟨h1, h2, h3⟩
      exact ⟨⟨h1, h2⟩, h3⟩

/-- C8 witness: in the two-room manager, the playing two-participant room
`p` receives exactly its sync broadcast and the selection criterion is
met. -/
theorem periodic_sync_exact_w :
    periodicSyncInterval = 10000
    ∧ syncThresholdPeriodic = 4
    ∧ ((performPeriodicSync rooms2 5000).filter (fun q => q.1 == "p")
        = if periodicSyncCond playingTwoRoom
          then [("p", { time := ((playingTwoRoom.getState 5000).1).currentTime,
                        tolerance := syncThresholdPeriodic })]
          else [])
    ∧ (periodicSyncCond playingTwoRoom = true
        ↔ playingTwoRoom.currentVideo ≠ none ∧ playingTwoRoom.isPlaying = true
          ∧ 1 < playingTwoRoom.participants.length) :=
  periodic_sync_exact rooms2 5000 (by decide) "p" playingTwoRoom (by decide)

end ListenTogether
